import Mathlib

/-!
Verification of the kingler terminal tool (Rust) against its
natural-language specification.  The Rust sources are shallowly embedded:
HashMaps become association lists, printed output becomes lists of output
lines, and every random draw becomes an explicit numeric parameter (the
index the generator would have produced), so that all definitions are
executable.
-/

set_option maxRecDepth 10000

deriving instance DecidableEq for Except

/-- Lookup in an association list, modelling HashMap::get from the Rust
sources (first matching key wins; a HashMap has unique keys, so this is
faithful). -/
def alistGet {α : Type} (l : List (String × α)) (k : String) : Option α :=
  match l with
  | [] => none
  | (k', v) :: rest => if k' = k then some v else alistGet rest k

/-- Models rand SliceRandom choose: returns none on an empty slice and
some element otherwise; the random draw is made explicit as the index i
(reduced modulo the length, as a uniform pick would be). -/
def chooseIdx {α : Type} (l : List α) (i : Nat) : Option α :=
  if l.isEmpty then none else l.get? (i % l.length)

/-- Left-aligned minimum-width formatting: Rust format spec {: <w} pads the
argument on the right with spaces up to width w (width counted in chars). -/
def padRight (s : String) (w : Nat) : String :=
  s ++ String.mk (List.replicate (w - s.length) ' ')

/-- Rust str::lines: split on the newline char, drop one trailing empty
piece when the string ends with a newline, and strip one trailing carriage
return from each line. -/
def rustLines (s : String) : List String :=
  let parts := s.split (· = '\n')
  let parts := if parts.getLast? = some "" then parts.dropLast else parts
  parts.map (fun l => if l.endsWith "\r" then l.dropRight 1 else l)

/-- The creature record, from pokemon.rs (struct Pokemon).  The forms
field is the ordered list of alternate form identifiers used by main.rs
(show_random_pokemon) and described in the struct documentation. -/
structure Pokemon where
  slug : String
  gen : Nat
  name : List (String × String)
  desc : List (String × List (String × String))
  forms : List String
  stats : Option (List (String × Nat))
deriving DecidableEq, Repr

/-- The error enumeration from error.rs.  The PokemonDb payload stands for
the underlying JSON error message. -/
inductive KError where
  | Configuration : String → KError
  | PokemonDb : String → KError
  | InvalidPokemon : String → KError
  | InvalidLanguage : String → KError
  | InvalidGeneration : String → KError
deriving DecidableEq, Repr

/-- The no-descriptions notice from ascii.rs.  The Rust call is
println with format string "brace: <1$brace No descriptions available for
language: braces braces" and arguments "", padding_left, language; the
width argument 1$ does not advance the implicit argument counter, so the
two bare placeholders receive padding_left and language: after the
padding spaces the line shows the padding_left value, a space, and then
the language code. -/
def noticeLine (padL : Nat) (language : String) : String :=
  padRight "" padL ++ "No descriptions available for language: "
    ++ Nat.repr padL ++ " " ++ language

/-- The dim/white styling applied to a description line in ascii.rs. -/
def styleDesc (s : String) : String := "\x1b[37m" ++ s ++ "\x1b[0m"

/-- One output row of the interleaved layout of ascii.rs
draw_pokemon_art: the art line padded to padding_left, the two-tab
separator, and, when a description line lands on this row, that line
styled and padded to padding_left + desc_width + 1. -/
def interleavedRow (line : String) (padL : Nat) (descPart : Option String)
    (descWidth : Nat) : String :=
  padRight line padL ++ "\t\t" ++
    match descPart with
    | some d => styleDesc (padRight d (padL + descWidth + 1))
    | none => ""

/-- ascii.rs draw_pokemon_art, with the art already split into lines (the
source collects art.lines() into a vector first) and the printed output
returned as a list of output lines. -/
def draw_pokemon_art (lines descLines : List String) (padL : Nat)
    (language : String) : List String :=
  let descWidth := (descLines.map String.length).foldl max 0
  let midIndex := lines.length / 2
  let startIndex := if 3 ≤ lines.length then midIndex - 1 else midIndex
  (lines.enum.map (fun p =>
    interleavedRow p.2 padL
      (if startIndex ≤ p.1 ∧ p.1 - startIndex < descLines.length then
        some (descLines.getD (p.1 - startIndex) "")
      else none) descWidth))
  ++ (if descLines.isEmpty then [noticeLine padL language] else [])

/-- ascii.rs draw_pokemon_art_under: art rows first, then either the
styled description lines or the notice line. -/
def draw_pokemon_art_under (lines descLines : List String) (padL : Nat)
    (language : String) : List String :=
  let descWidth := (descLines.map String.length).foldl max 0
  let artRows := lines.map (fun line => padRight line padL)
  if !descLines.isEmpty then
    artRows ++ descLines.map (fun d => styleDesc (padRight d (padL + descWidth + 1)))
  else
    artRows ++ [noticeLine padL language]

/-- ascii.rs print_ascii_art: each art line padded to padding_left. -/
def print_ascii_art (lines : List String) (padL : Nat) : List String :=
  lines.map (fun line => padRight line padL)

/-- Claim C1: the claim states that in both layout modes the notice line
is the left padding followed exactly by the text, quote, No descriptions
available for language: LANGUAGE, end quote.  The code instead also
interpolates the numeric padding_left value before the language code,
because the format width argument 1$ does not consume the implicit
argument counter.  This theorem evaluates both compositor modes at
padding_left 2 and language en with an empty description set and exhibits
the extra text. -/
theorem C1_notice_formatting_bug :
    draw_pokemon_art ["(art)"] [] 2 "en"
      = ["(art)\t\t", "  No descriptions available for language: 2 en"]
    ∧ draw_pokemon_art_under ["(art)"] [] 2 "en"
      = ["(art)", "  No descriptions available for language: 2 en"]
    ∧ noticeLine 2 "en" ≠ "  No descriptions available for language: en" := by
  refine ⟨?_, ?_, ?_⟩ <;> decide

/-- Claim C2 counterexample: with an empty art block (N = 0) and a
non-empty description list, the interleaved compositor prints no output
row at all, so the first description line does not appear at output row
floor(0 / 2) = 0 as the claim, read for every N, would require. -/
theorem C2_counterexample :
    draw_pokemon_art [] ["d"] 0 "en" = []
    ∧ (draw_pokemon_art [] ["d"] 0 "en")[(0 : Nat) / 2]? = none := by
  refine ⟨?_, ?_⟩ <;> decide

/-- Claim C2 (amended to art blocks with at least one line): in
interleaved mode, for art with N lines, N at least 1, and a non-empty
description list, the first description line is printed on output row
floor(N div 2) minus 1 (clamped at 0) when N is at least 3, and on output
row floor(N div 2) when N is less than 3; every earlier output row
carries no description part. -/
theorem C2_interleaved_start_row (lines descLines : List String)
    (padL : Nat) (lang : String) (hd : descLines ≠ []) (hn : 1 ≤ lines.length) :
    (draw_pokemon_art lines descLines padL lang)[(if 3 ≤ lines.length then
        lines.length / 2 - 1 else lines.length / 2)]?
      = some (interleavedRow
          (lines.getD (if 3 ≤ lines.length then lines.length / 2 - 1
            else lines.length / 2) "")
          padL (some (descLines.getD 0 ""))
          ((descLines.map String.length).foldl max 0))
    ∧ ∀ j < (if 3 ≤ lines.length then lines.length / 2 - 1 else lines.length / 2),
        (draw_pokemon_art lines descLines padL lang)[j]?
          = some (interleavedRow (lines.getD j "") padL none
              ((descLines.map String.length).foldl max 0)) := by
  have he : descLines.isEmpty = false := List.isEmpty_eq_false.mpr hd
  have hdpos : 0 < descLines.length := List.length_pos.mpr hd
  set I : Nat := if 3 ≤ lines.length then lines.length / 2 - 1 else lines.length / 2 with hI
  have hIlt : I < lines.length := by
    rw [hI]
    split
    · omega
    · exact Nat.div_lt_self (by omega) (by omega)
  have hout : ∀ i, i < lines.length →
      (draw_pokemon_art lines descLines padL lang)[i]?
        = (lines[i]?).map (fun a =>
            interleavedRow a padL
              (if I ≤ i ∧ i - I < descLines.length then
                some (descLines.getD (i - I) "") else none)
              ((descLines.map String.length).foldl max 0)) := by
    intro i hi
    simp only [draw_pokemon_art, he, Bool.false_eq_true, if_false, List.append_nil, ← hI]
    rw [List.getElem?_map, List.getElem?_enum]
    cases lines[i]? <;> rfl
  constructor
  · rw [hout I hIlt]
    have : lines[I]? = some (lines.getD I "") := by
      rw [List.getD_eq_getElem?_getD, List.getElem?_eq_getElem hIlt]
      rfl
    rw [this]
    simp only [Option.map_some']
    rw [if_pos ⟨le_refl I, by omega⟩]
    simp [Nat.sub_self]
  · intro j hj
    rw [hout j (lt_trans hj hIlt)]
    have : lines[j]? = some (lines.getD j "") := by
      rw [List.getD_eq_getElem?_getD, List.getElem?_eq_getElem (lt_trans hj hIlt)]
      rfl
    rw [this]
    simp only [Option.map_some']
    rw [if_neg (by omega)]

/-- Claim C2 witness: the amended theorem applied to a concrete
four-line art block with a one-line description. -/
theorem C2_interleaved_start_row_witness :
    (draw_pokemon_art ["a", "b", "c", "d"] ["x"] 0 "en")[(if 3 ≤ (["a", "b", "c", "d"] : List String).length then
        (["a", "b", "c", "d"] : List String).length / 2 - 1 else (["a", "b", "c", "d"] : List String).length / 2)]?
      = some (interleavedRow
          ((["a", "b", "c", "d"] : List String).getD (if 3 ≤ (["a", "b", "c", "d"] : List String).length then
            (["a", "b", "c", "d"] : List String).length / 2 - 1
            else (["a", "b", "c", "d"] : List String).length / 2) "")
          0 (some ((["x"] : List String).getD 0 ""))
          (((["x"] : List String).map String.length).foldl max 0))
    ∧ ∀ j < (if 3 ≤ (["a", "b", "c", "d"] : List String).length then
        (["a", "b", "c", "d"] : List String).length / 2 - 1 else (["a", "b", "c", "d"] : List String).length / 2),
        (draw_pokemon_art ["a", "b", "c", "d"] ["x"] 0 "en")[j]?
          = some (interleavedRow ((["a", "b", "c", "d"] : List String).getD j "") 0 none
              (((["x"] : List String).map String.length).foldl max 0)) :=
  C2_interleaved_start_row ["a", "b", "c", "d"] ["x"] 0 "en" (by decide) (by decide)

/-- Rust str::split_once: split at the first occurrence of the character,
returning the parts before and after it, or none when it is absent. -/
def splitOnceChar (s : String) (c : Char) : Option (String × String) :=
  match s.toList.findIdx? (· = c) with
  | none => none
  | some i => some (String.mk (s.toList.take i), String.mk (s.toList.drop (i + 1)))

/-- Rust str::parse for u8: an optional leading plus sign, then one or
more ASCII digits, with the value required to fit in 0..255; anything
else (empty input, a minus sign, other characters, overflow) fails. -/
def parseU8 (s : String) : Option Nat :=
  let digits := match s.toList with
    | '+' :: rest => rest
    | cs => cs
  if digits.isEmpty then none
  else if digits.all (·.isDigit) then
    let v := digits.foldl (fun a c => a * 10 + (c.toNat - '0'.toNat)) 0
    if v ≤ 255 then some v else none
  else none

/-- main.rs show_random_pokemon lines 135-142: the pair of generation
bound strings.  A dash filter splits at the first dash; otherwise the
filter is split on commas, one element is chosen at random (genIdx makes
the draw explicit), with "1" as the fallback of unwrap_or for the
impossible empty list, and that element serves as both bounds. -/
def selectorBounds (gens : String) (genIdx : Nat) : String × String :=
  match splitOnceChar gens '-' with
  | some p => p
  | none =>
    let genList := gens.split (· = ',')
    let g := (chooseIdx genList genIdx).getD "1"
    (g, g)

/-- main.rs show_random_pokemon lines 153-156: the generation-filtered
candidate list. -/
def generationCandidates (db : List Pokemon) (startGen endGen : Nat) : List Pokemon :=
  db.filter (fun p => decide (startGen ≤ p.gen) && decide (endGen ≥ p.gen))

/-- main.rs show_random_pokemon lines 134-162: parse the two generation
bounds (each parse failure is InvalidGeneration carrying the original
filter string), filter the database, and choose one candidate at random
(pokeIdx makes the draw explicit); an empty candidate list is also
InvalidGeneration with the original string. -/
def selectorResolve (gens : String) (genIdx pokeIdx : Nat)
    (db : List Pokemon) : Except KError Pokemon :=
  let bounds := selectorBounds gens genIdx
  match parseU8 bounds.1 with
  | none => Except.error (KError.InvalidGeneration gens)
  | some startGen =>
    match parseU8 bounds.2 with
    | none => Except.error (KError.InvalidGeneration gens)
    | some endGen =>
      match chooseIdx (generationCandidates db startGen endGen) pokeIdx with
      | none => Except.error (KError.InvalidGeneration gens)
      | some p => Except.ok p

theorem chooseIdx_eq_some {α : Type} {l : List α} {i : Nat} {x : α}
    (h : chooseIdx l i = some x) : x ∈ l := by
  unfold chooseIdx at h
  split at h
  · exact absurd h (by simp)
  · exact List.get?_mem h

theorem chooseIdx_eq_none_iff {α : Type} {l : List α} {i : Nat} :
    chooseIdx l i = none ↔ l = [] := by
  unfold chooseIdx
  split
  · simp_all [List.isEmpty_iff]
  · rename_i hne
    have hne' : l ≠ [] := by simpa [List.isEmpty_iff] using hne
    have hlt : i % l.length < l.length :=
      Nat.mod_lt _ (List.length_pos.mpr hne')
    simp only [List.get?_eq_get hlt, hne', iff_false]
    simp

theorem mem_generationCandidates {db : List Pokemon} {s e : Nat} {p : Pokemon}
    (h : p ∈ generationCandidates db s e) : s ≤ p.gen ∧ p.gen ≤ e := by
  unfold generationCandidates at h
  rw [List.mem_filter] at h
  simpa [ge_iff_le] using h.2

/-- Claim C3: for every generation filter string of the dash form a-b
with 1 le a le b le 9, the candidate set built by the random selector
contains only records with generation between a and b, and hence any
record the selector returns satisfies those bounds. -/
theorem C3_generation_range_respected (gens : String) (genIdx pokeIdx : Nat)
    (db : List Pokemon) (sa sb : String) (a b : Nat)
    (hsplit : splitOnceChar gens '-' = some (sa, sb))
    (hpa : parseU8 sa = some a) (hpb : parseU8 sb = some b)
    (h1 : 1 ≤ a) (hab : a ≤ b) (hb9 : b ≤ 9) :
    (∀ p ∈ generationCandidates db a b, a ≤ p.gen ∧ p.gen ≤ b)
    ∧ ∀ p, selectorResolve gens genIdx pokeIdx db = Except.ok p →
        a ≤ p.gen ∧ p.gen ≤ b := by
  constructor
  · intro p hp
    exact mem_generationCandidates hp
  · intro p hp
    unfold selectorResolve at hp
    rw [show selectorBounds gens genIdx = (sa, sb) by
      unfold selectorBounds; rw [hsplit]] at hp
    simp only [hpa, hpb] at hp
    split at hp
    · exact absurd hp (by simp)
    · rename_i q hq
      cases hp
      exact mem_generationCandidates (chooseIdx_eq_some hq)

/-- Claim C3 witness: the theorem applied to the concrete filter 1-3 and
a one-record database of generation 2. -/
theorem C3_generation_range_respected_witness :
    (∀ p ∈ generationCandidates [⟨"abra", 2, [], [], [], none⟩] 1 3,
        1 ≤ p.gen ∧ p.gen ≤ 3)
    ∧ ∀ p, selectorResolve "1-3" 0 0 [⟨"abra", 2, [], [], [], none⟩] = Except.ok p →
        1 ≤ p.gen ∧ p.gen ≤ 3 :=
  C3_generation_range_respected "1-3" 0 0 [⟨"abra", 2, [], [], [], none⟩]
    "1" "3" 1 3 (by decide) (by decide) (by decide) (by decide) (by decide) (by decide)

/-- Claim C4: for every generation filter string, the selector fails with
InvalidGeneration exactly when one of the two bound strings fails to
parse as a u8 or the generation-filtered candidate list is empty, and
every error it raises is InvalidGeneration carrying the original filter
string unchanged. -/
theorem C4_invalid_generation_iff (gens : String) (genIdx pokeIdx : Nat)
    (db : List Pokemon) :
    (selectorResolve gens genIdx pokeIdx db
        = Except.error (KError.InvalidGeneration gens)
      ↔ parseU8 (selectorBounds gens genIdx).1 = none
        ∨ parseU8 (selectorBounds gens genIdx).2 = none
        ∨ ∃ a b, parseU8 (selectorBounds gens genIdx).1 = some a
            ∧ parseU8 (selectorBounds gens genIdx).2 = some b
            ∧ generationCandidates db a b = [])
    ∧ ∀ e, selectorResolve gens genIdx pokeIdx db = Except.error e →
        e = KError.InvalidGeneration gens := by
  unfold selectorResolve
  cases hpa : parseU8 (selectorBounds gens genIdx).1 with
  | none => simp [hpa]
  | some a =>
    cases hpb : parseU8 (selectorBounds gens genIdx).2 with
    | none => simp [hpa, hpb]
    | some b =>
      cases hc : chooseIdx (generationCandidates db a b) pokeIdx with
      | none =>
        rw [chooseIdx_eq_none_iff] at hc
        simp only [hpa, hpb]
        rw [show chooseIdx (generationCandidates db a b) pokeIdx = none from
          chooseIdx_eq_none_iff.mpr hc]
        simp only [Except.error.injEq]
        exact ⟨by simp [hc], by intro e he; simpa using he.symm⟩
      | some p =>
        simp only [hpa, hpb, hc]
        constructor
        · constructor
          · intro h
            exact absurd h (by simp)
          · rintro (h | h | ⟨a', b', ha', hb', hemp⟩)
            · simp at h
            · simp at h
            · obtain rfl : a = a' := by simpa using ha'
              obtain rfl : b = b' := by simpa using hb'
              rw [hemp] at hc
              simp [chooseIdx] at hc
        · intro e he
          exact absurd he (by simp)

/-- description.rs get_random_description: look up the language in the
two-level description map, collect the game keys, choose one at random
(gameIdx makes the draw explicit), and return the lines of that entry;
every missing step yields the empty vector.  The configured language is
passed directly instead of the whole Config. -/
def get_random_description (pokemon : Pokemon) (language : String)
    (gameIdx : Nat) : List String :=
  match alistGet pokemon.desc language with
  | some descriptions =>
    match chooseIdx (descriptions.map Prod.fst) gameIdx with
    | some randomGame =>
      match alistGet descriptions randomGame with
      | some d => rustLines d
      | none => []
    | none => []
  | none => []

/-- main.rs show_pokemon_by_name lines 346-358 (the game_info branch with
info set): return the named game entry verbatim when it exists under the
configured language, and otherwise fall back to
get_random_description, also when the language itself is absent. -/
def pickDescription (pokemon : Pokemon) (language gameInfo : String)
    (gameIdx : Nat) : List String :=
  match alistGet pokemon.desc language with
  | some gameDescriptions =>
    match alistGet gameDescriptions gameInfo with
    | some gameDesc => rustLines gameDesc
    | none => get_random_description pokemon language gameIdx
  | none => get_random_description pokemon language gameIdx

theorem alistGet_of_mem_keys {α : Type} {l : List (String × α)} {k : String}
    (h : k ∈ l.map Prod.fst) : ∃ v, alistGet l k = some v ∧ (k, v) ∈ l := by
  induction l with
  | nil => simp at h
  | cons hd tl ih =>
    obtain ⟨k1, v1⟩ := hd
    by_cases hk : k1 = k
    · subst hk
      exact ⟨v1, by unfold alistGet; simp, List.mem_cons_self _ _⟩
    · have h' : k ∈ tl.map Prod.fst := by
        rw [List.map_cons] at h
        rcases List.mem_cons.mp h with h0 | h0
        · exact absurd h0.symm hk
        · exact h0
      obtain ⟨v, hv, hmem⟩ := ih h'
      exact ⟨v, by unfold alistGet; simp [hk, hv], List.mem_cons_of_mem _ hmem⟩

/-- Claim C5: when the description map of a record has a non-empty entry
for the language but the requested game name is absent from it, the
description picker falls back to the lines of some game entry that does
exist under that language. -/
theorem C5_missing_variant_falls_back (p : Pokemon) (language gameInfo : String)
    (gameIdx : Nat) (ds : List (String × String))
    (hds : alistGet p.desc language = some ds) (hne : ds ≠ [])
    (hmiss : alistGet ds gameInfo = none) :
    ∃ g d, (g, d) ∈ ds ∧ pickDescription p language gameInfo gameIdx = rustLines d := by
  have hkeys : ds.map Prod.fst ≠ [] := by simpa using hne
  obtain ⟨g, hg⟩ : ∃ g, chooseIdx (ds.map Prod.fst) gameIdx = some g := by
    cases hcg : chooseIdx (ds.map Prod.fst) gameIdx with
    | none => exact absurd (chooseIdx_eq_none_iff.mp hcg) hkeys
    | some g => exact ⟨g, rfl⟩
  obtain ⟨d, hd, hmem⟩ := alistGet_of_mem_keys (chooseIdx_eq_some hg)
  refine ⟨g, d, hmem, ?_⟩
  unfold pickDescription
  rw [hds]
  simp only [hmiss]
  unfold get_random_description
  rw [hds]
  simp only [hg, hd]

/-- Claim C5 witness: a record holding one red entry under language en,
queried for the absent game blue, returns the red lines. -/
theorem C5_missing_variant_falls_back_witness :
    ∃ g d, (g, d) ∈ [("red", "l1\nl2")]
      ∧ pickDescription ⟨"abra", 2, [], [("en", [("red", "l1\nl2")])], [], none⟩
          "en" "blue" 0 = rustLines d :=
  C5_missing_variant_falls_back ⟨"abra", 2, [], [("en", [("red", "l1\nl2")])], [], none⟩
    "en" "blue" 0 [("red", "l1\nl2")] (by decide) (by decide) (by decide)

/-- Claim C6: when the language is entirely absent from the description
map of a record, the description picker returns the empty line sequence,
both in the unnamed random form and in the named game_info form; being a
total function into List String, it signals no error. -/
theorem C6_absent_language_empty (p : Pokemon) (language gameInfo : String)
    (gameIdx : Nat) (h : alistGet p.desc language = none) :
    get_random_description p language gameIdx = []
    ∧ pickDescription p language gameInfo gameIdx = [] := by
  have hr : get_random_description p language gameIdx = [] := by
    unfold get_random_description
    rw [h]
  refine ⟨hr, ?_⟩
  unfold pickDescription
  rw [h]
  exact hr

/-- Claim C6 witness: a record with an empty description map queried for
language en. -/
theorem C6_absent_language_empty_witness :
    get_random_description ⟨"abra", 2, [], [], [], none⟩ "en" 0 = []
    ∧ pickDescription ⟨"abra", 2, [], [], [], none⟩ "en" "red" 0 = [] :=
  C6_absent_language_empty ⟨"abra", 2, [], [], [], none⟩ "en" "red" 0 (by decide)

/-- One row of the stats table from stats.rs: Rust format string with
fields label1 padded to 15, value1 padded to 5 after one space, then two
spaces, label2 padded to 15, one space, value2 bare. -/
def fmtStatRow (s1 : String) (v1 : Nat) (s2 : String) (v2 : Nat) : String :=
  padRight (s1 ++ ":") 15 ++ " " ++ padRight (Nat.repr v1) 5 ++ "  "
    ++ padRight (s2 ++ ":") 15 ++ " " ++ Nat.repr v2

/-- stats.rs display_pokemon_stats: with a stat map present, three fixed
rows pairing hp with speed, attack with special-attack, defense with
special-defense, each missing key defaulting to 0 (unwrap_or); with the
map absent, a single notice line (the println leading newline kept as
part of the line). -/
def display_pokemon_stats (pokemon : Pokemon) : List String :=
  match pokemon.stats with
  | some stats =>
    [("hp", "speed"), ("attack", "special-attack"), ("defense", "special-defense")].map
      (fun q => fmtStatRow q.1 ((alistGet stats q.1).getD 0)
        q.2 ((alistGet stats q.2).getD 0))
  | none => ["\nStats not available for this Pokémon."]

/-- Claim C7: for a record with a stat map, the formatter always prints
exactly the three table rows (it never fails), each of the six canonical
keys that is missing from the map is printed as value 0 in its fixed row
and slot, and for a record without a stat map exactly the single
not-available notice is printed. -/
theorem C7_missing_stats_default_zero (p q : Pokemon) (m : List (String × Nat))
    (hp : p.stats = some m) (hq : q.stats = none) :
    (display_pokemon_stats p).length = 3
    ∧ (alistGet m "hp" = none → (display_pokemon_stats p)[0]?
        = some (fmtStatRow "hp" 0 "speed" ((alistGet m "speed").getD 0)))
    ∧ (alistGet m "speed" = none → (display_pokemon_stats p)[0]?
        = some (fmtStatRow "hp" ((alistGet m "hp").getD 0) "speed" 0))
    ∧ (alistGet m "attack" = none → (display_pokemon_stats p)[1]?
        = some (fmtStatRow "attack" 0 "special-attack"
            ((alistGet m "special-attack").getD 0)))
    ∧ (alistGet m "special-attack" = none → (display_pokemon_stats p)[1]?
        = some (fmtStatRow "attack" ((alistGet m "attack").getD 0)
            "special-attack" 0))
    ∧ (alistGet m "defense" = none → (display_pokemon_stats p)[2]?
        = some (fmtStatRow "defense" 0 "special-defense"
            ((alistGet m "special-defense").getD 0)))
    ∧ (alistGet m "special-defense" = none → (display_pokemon_stats p)[2]?
        = some (fmtStatRow "defense" ((alistGet m "defense").getD 0)
            "special-defense" 0))
    ∧ display_pokemon_stats q = ["\nStats not available for this Pokémon."] := by
  unfold display_pokemon_stats
  rw [hp, hq]
  refine ⟨rfl, ?_, ?_, ?_, ?_, ?_, ?_, rfl⟩ <;>
    (intro h; simp [h])

/-- Claim C7 witness: a record whose stat map holds only hp, and a record
without a stat map. -/
theorem C7_missing_stats_default_zero_witness :
    (display_pokemon_stats ⟨"abra", 2, [], [], [], some [("hp", 35)]⟩).length = 3
    ∧ (display_pokemon_stats ⟨"abra", 2, [], [], [], some [("hp", 35)]⟩)[0]?
        = some (fmtStatRow "hp" 35 "speed" 0)
    ∧ display_pokemon_stats ⟨"abra", 2, [], [], [], none⟩
        = ["\nStats not available for this Pokémon."] := by
  have h := C7_missing_stats_default_zero
    ⟨"abra", 2, [], [], [], some [("hp", 35)]⟩ ⟨"abra", 2, [], [], [], none⟩
    [("hp", 35)] rfl rfl
  exact ⟨h.1, h.2.2.1 (by decide), h.2.2.2.2.2.2.2⟩

/-- main.rs show_random_pokemon lines 180-193: the candidate form list,
seeded with regular, extended with the record forms, then narrowed by the
three optional exclusion filters (retain keeps the elements for which the
predicate holds). -/
def buildForms (forms : List String) (no_mega no_gmax no_regional : Bool) : List String :=
  let fs := "regular" :: forms
  let fs := if no_mega then
    fs.filter (fun f => !(["mega", "mega-x", "mega-y"].contains f)) else fs
  let fs := if no_gmax then fs.filter (fun f => f != "gmax") else fs
  if no_regional then
    fs.filter (fun f => !(["alola", "galar", "hisui", "paldea"].contains f)) else fs

/-- main.rs show_random_pokemon lines 196-199: choose a form at random,
falling back to regular when the list is empty (unwrap_or with the
long-lived default string). -/
def chooseForm (forms : List String) (no_mega no_gmax no_regional : Bool)
    (formIdx : Nat) : String :=
  (chooseIdx (buildForms forms no_mega no_gmax no_regional) formIdx).getD "regular"

/-- Claim C10: for every record form list and every combination of the
three exclusion flags, the filtered candidate form list still contains
regular (no exclusion string equals regular), hence it is never empty and
the random choice always succeeds, making the empty-list fallback of the
form choice unreachable. -/
theorem C10_regular_always_remains (forms : List String)
    (no_mega no_gmax no_regional : Bool) (formIdx : Nat) :
    "regular" ∈ buildForms forms no_mega no_gmax no_regional
    ∧ buildForms forms no_mega no_gmax no_regional ≠ []
    ∧ ∃ f, chooseIdx (buildForms forms no_mega no_gmax no_regional) formIdx
        = some f ∧ chooseForm forms no_mega no_gmax no_regional formIdx = f := by
  have hmem : "regular" ∈ buildForms forms no_mega no_gmax no_regional := by
    unfold buildForms
    have h0 : "regular" ∈ "regular" :: forms := List.mem_cons_self _ _
    cases no_mega <;> cases no_gmax <;> cases no_regional <;>
      simp_all [List.mem_filter]
  have hne : buildForms forms no_mega no_gmax no_regional ≠ [] :=
    fun h => by rw [h] at hmem; exact absurd hmem (List.not_mem_nil _)
  obtain ⟨f, hf⟩ : ∃ f,
      chooseIdx (buildForms forms no_mega no_gmax no_regional) formIdx = some f := by
    cases hc : chooseIdx (buildForms forms no_mega no_gmax no_regional) formIdx with
    | none => exact absurd (chooseIdx_eq_none_iff.mp hc) hne
    | some f => exact ⟨f, rfl⟩
  exact ⟨hmem, hne, f, hf, by unfold chooseForm; rw [hf]; rfl⟩

/-- The by-name request shape from cli.rs (struct Name). -/
structure NameArgs where
  name : String
  form : String
  shiny : Bool
  info : Bool
  game_info : String
  under : Bool
  no_title : Bool
  padding_left : Nat
  stats : Bool
deriving DecidableEq, Repr

/-- The title line printed by main.rs show_pokemon_by_name lines 301-305:
the display name padded to padding_left, then a parenthesised form suffix
unless the form is regular. -/
def titleLine (pokemonName form : String) (padL : Nat) : String :=
  padRight pokemonName padL ++ (if form = "regular" then "" else " (" ++ form ++ ")")

/-- main.rs show_pokemon_by_name lines 272-390, embedded with the art
asset already split into lines (the asset store is an external
collaborator whose bytes are assumed present) and the printed output
returned as lines.  The record is found by slug; the title block resolves
the display name in the configured language only when the title is not
suppressed, failing with InvalidLanguage when that language is absent;
the description lines follow the game_info branching of the source, with
gameIdx standing for the random game draw; the body is one of the two
compositor modes or the plain art; stats rows are appended on demand. -/
def show_pokemon_by_name (args : NameArgs) (art : List String)
    (db : List Pokemon) (language : String) (gameIdx : Nat) :
    Except KError (List String) :=
  match db.find? (fun p => p.slug == args.name) with
  | some pokemon =>
    let titleRes : Except KError (List String) :=
      if args.no_title then Except.ok []
      else
        match alistGet pokemon.name language with
        | some n => Except.ok [titleLine n args.form args.padding_left]
        | none => Except.error (KError.InvalidLanguage language)
    match titleRes with
    | Except.error e => Except.error e
    | Except.ok titleLines =>
      let descLines : List String :=
        if args.game_info.isEmpty then
          (if args.info then
            match alistGet pokemon.desc language with
            | some gameDescriptions =>
              match chooseIdx (gameDescriptions.map Prod.fst) gameIdx with
              | some randomGame =>
                (alistGet gameDescriptions randomGame).map rustLines
              | none => none
            | none => none
          else none).getD []
        else
          if args.info then pickDescription pokemon language args.game_info gameIdx
          else []
      let body : List String :=
        if args.info then
          if args.under then
            draw_pokemon_art_under art descLines args.padding_left language
          else draw_pokemon_art art descLines args.padding_left language
        else print_ascii_art art args.padding_left
      let statsLines : List String :=
        if args.stats then display_pokemon_stats pokemon else []
      Except.ok (titleLines ++ body ++ statsLines)
  | none => Except.error (KError.InvalidPokemon args.name)

/-- Claim C8 counterexample: a record found by slug whose name map lacks
the configured language en, requested with title suppression: the
operation succeeds instead of failing with InvalidLanguage, because the
language lookup sits inside the title branch. -/
theorem C8_counterexample :
    show_pokemon_by_name ⟨"pika", "regular", false, false, "", false, true, 0, false⟩
        [] [⟨"pika", 1, [], [], [], none⟩] "en" 0 = Except.ok []
    ∧ show_pokemon_by_name ⟨"pika", "regular", false, false, "", false, true, 0, false⟩
        [] [⟨"pika", 1, [], [], [], none⟩] "en" 0
      ≠ Except.error (KError.InvalidLanguage "en") := by
  refine ⟨?_, ?_⟩ <;> decide

/-- Claim C8 (amended to requests that do not suppress the title): when
the slug is found, the title is not suppressed, and the name map of the
record has no entry for the configured language, the by-name operation
fails with InvalidLanguage carrying that language code; with no_title set
the lookup is skipped and no such error is raised. -/
theorem C8_invalid_language_on_title (args : NameArgs) (art : List String)
    (db : List Pokemon) (language : String) (gameIdx : Nat) (p : Pokemon)
    (hfind : db.find? (fun q => q.slug == args.name) = some p)
    (hnt : args.no_title = false)
    (hlang : alistGet p.name language = none) :
    show_pokemon_by_name args art db language gameIdx
      = Except.error (KError.InvalidLanguage language) := by
  unfold show_pokemon_by_name
  rw [hfind]
  simp only [hnt, Bool.false_eq_true, if_false, hlang]

/-- Claim C8 witness: the amended theorem applied to a one-record
database whose record has an empty name map and a request that keeps the
title. -/
theorem C8_invalid_language_on_title_witness :
    show_pokemon_by_name ⟨"pika", "regular", false, false, "", false, false, 0, false⟩
        [] [⟨"pika", 1, [], [], [], none⟩] "en" 0
      = Except.error (KError.InvalidLanguage "en") :=
  C8_invalid_language_on_title
    ⟨"pika", "regular", false, false, "", false, false, 0, false⟩ []
    [⟨"pika", 1, [], [], [], none⟩] "en" 0 ⟨"pika", 1, [], [], [], none⟩
    (by decide) rfl rfl

/-- shiny_hunting.rs ShinyLogEntry. -/
structure ShinyLogEntry where
  pokemon_name : String
  form : String
  date : String
  details : String
deriving DecidableEq, Repr

/-- shiny_hunting.rs log_shiny_capture, with the log file content as an
explicit value (none means the file does not exist) and serde_json kept
abstract as an encode function enc and a parse function dec.  The open
in create-and-append mode makes a missing file empty; an empty file is
first seeded with the two characters open-bracket close-bracket and a
newline (writeln of the empty array); the whole content is then parsed,
the entry pushed, and the full array rewritten.  A parse failure
propagates as an error. -/
def log_shiny_capture (enc : List ShinyLogEntry → String)
    (dec : String → Option (List ShinyLogEntry))
    (file : Option String) (entry : ShinyLogEntry) : Except Unit String :=
  let content := file.getD ""
  let content := if content = "" then "[]\n" else content
  match dec content with
  | none => Except.error ()
  | some entries => Except.ok (enc (entries ++ [entry]))

/-- shiny_hunting.rs load_shiny_log: read the file (an absent file is an
error) and parse the whole content. -/
def load_shiny_log (dec : String → Option (List ShinyLogEntry))
    (file : Option String) : Except Unit (List ShinyLogEntry) :=
  match file with
  | none => Except.error ()
  | some c =>
    match dec c with
    | none => Except.error ()
    | some entries => Except.ok entries

/-- A sequence of single-entry appends performed one at a time, each one
a full log_shiny_capture invocation on the file state the previous one
left behind. -/
def appendMany (enc : List ShinyLogEntry → String)
    (dec : String → Option (List ShinyLogEntry))
    (file : Option String) : List ShinyLogEntry → Except Unit (Option String)
  | [] => Except.ok file
  | e :: es =>
    match log_shiny_capture enc dec file e with
    | Except.error _ => Except.error ()
    | Except.ok c => appendMany enc dec (some c) es

/-- The entry list a log file state stands for, exactly as
log_shiny_capture recovers it: a missing or empty file is seeded as the
empty array, any other content is parsed. -/
def logStateEntries (dec : String → Option (List ShinyLogEntry)) :
    Option String → Option (List ShinyLogEntry)
  | none => some []
  | some c => if c = "" then some [] else dec c

theorem appendMany_content (enc : List ShinyLogEntry → String)
    (dec : String → Option (List ShinyLogEntry))
    (Hrt : ∀ l, dec (enc l) = some l)
    (Hinit : dec "[]\n" = some [])
    (Hne : ∀ l, enc l ≠ "") :
    ∀ (es : List ShinyLogEntry) (f : Option String) (l0 : List ShinyLogEntry),
      logStateEntries dec f = some l0 → es ≠ [] →
      appendMany enc dec f es = Except.ok (some (enc (l0 ++ es))) := by
  intro es
  induction es with
  | nil => intro f l0 _ hne; exact absurd rfl hne
  | cons e es ih =>
    intro f l0 h0 _
    have hstep : log_shiny_capture enc dec f e = Except.ok (enc (l0 ++ [e])) := by
      unfold log_shiny_capture
      match f with
      | none =>
        simp only [logStateEntries] at h0
        have hl0 : l0 = [] := by simpa using h0.symm
        subst hl0
        simp [Hinit]
      | some c =>
        by_cases hc : c = ""
        · subst hc
          simp only [logStateEntries, if_pos rfl] at h0
          have hl0 : l0 = [] := by simpa using h0.symm
          subst hl0
          simp [Hinit]
        · simp only [logStateEntries, if_neg hc] at h0
          simp [Option.getD, hc, h0]
    cases es with
    | nil =>
      show appendMany enc dec f [e] = Except.ok (some (enc (l0 ++ [e])))
      unfold appendMany
      rw [hstep]
      rfl
    | cons e2 es2 =>
      show appendMany enc dec f (e :: e2 :: es2) = _
      unfold appendMany
      rw [hstep]
      show appendMany enc dec (some (enc (l0 ++ [e]))) (e2 :: es2) = _
      have h1 : logStateEntries dec (some (enc (l0 ++ [e]))) = some (l0 ++ [e]) := by
        simp only [logStateEntries]
        rw [if_neg (Hne _), Hrt]
      rw [ih (some (enc (l0 ++ [e]))) (l0 ++ [e]) h1 (by simp)]
      simp

/-- Claim C9: with the serializer satisfying the serde_json contract
(parsing inverts encoding, the seeded empty array parses to no entries,
and an encoded array is never the empty string), starting from any log
state whose content stands for the entry list l0, appending the entries
es one at a time (each append a full read-modify-rewrite of the file)
succeeds, and reading the log back yields exactly l0 followed by es, with
no duplication or loss.  The claim speaks of appends actually performed,
so es is non-empty. -/
theorem C9_log_roundtrip (enc : List ShinyLogEntry → String)
    (dec : String → Option (List ShinyLogEntry))
    (Hrt : ∀ l, dec (enc l) = some l)
    (Hinit : dec "[]\n" = some [])
    (Hne : ∀ l, enc l ≠ "")
    (f0 : Option String) (l0 : List ShinyLogEntry)
    (h0 : logStateEntries dec f0 = some l0)
    (es : List ShinyLogEntry) (hes : es ≠ []) :
    ∃ c, appendMany enc dec f0 es = Except.ok (some c)
      ∧ load_shiny_log dec (some c) = Except.ok (l0 ++ es) := by
  refine ⟨enc (l0 ++ es),
    appendMany_content enc dec Hrt Hinit Hne es f0 l0 h0 hes, ?_⟩
  show (match dec (enc (l0 ++ es)) with
    | none => Except.error ()
    | some entries => Except.ok entries) = Except.ok (l0 ++ es)
  rw [Hrt]

/-- Count of leading marker characters, for the demonstration decoder. -/
def countL : List Char → Nat
  | [] => 0
  | c :: cs => if c = 'L' then countL cs + 1 else 0

/-- Demonstration string encoding: a unary length prefix of markers, a
colon, then the characters verbatim. -/
def encStr (s : String) : List Char :=
  List.replicate s.length 'L' ++ ':' :: s.toList

/-- Demonstration string decoding, the inverse of encStr, returning the
decoded characters and the unread remainder. -/
def decStr (cs : List Char) : Option (List Char × List Char) :=
  match cs.drop (countL cs) with
  | ':' :: rest =>
    if countL cs ≤ rest.length then
      some (rest.take (countL cs), rest.drop (countL cs))
    else none
  | _ => none

/-- Demonstration entry encoding: the four fields in order. -/
def encEntry (e : ShinyLogEntry) : List Char :=
  encStr e.pokemon_name ++ encStr e.form ++ encStr e.date ++ encStr e.details

/-- Demonstration entry decoding, the inverse of encEntry. -/
def decEntry (cs : List Char) : Option (ShinyLogEntry × List Char) :=
  match decStr cs with
  | none => none
  | some (a, cs1) =>
    match decStr cs1 with
    | none => none
    | some (b, cs2) =>
      match decStr cs2 with
      | none => none
      | some (c, cs3) =>
        match decStr cs3 with
        | none => none
        | some (d, cs4) =>
          some (⟨String.mk a, String.mk b, String.mk c, String.mk d⟩, cs4)

/-- Demonstration list encoding: C before each entry, E at the end. -/
def encList : List ShinyLogEntry → List Char
  | [] => ['E']
  | e :: es => 'C' :: (encEntry e ++ encList es)

/-- Demonstration list decoding with explicit fuel. -/
def decListAux : Nat → List Char → Option (List ShinyLogEntry)
  | _, ['E'] => some []
  | fuel + 1, 'C' :: cs =>
    match decEntry cs with
    | none => none
    | some (e, rest) =>
      match decListAux fuel rest with
      | none => none
      | some es => some (e :: es)
  | _, _ => none

/-- Demonstration serializer witnessing the serde_json contract used by
the log round-trip claim. -/
def demoEnc (l : List ShinyLogEntry) : String := String.mk (encList l)

/-- Demonstration parser: the seeded empty-array content parses to the
empty list, anything else is decoded with decListAux. -/
def demoDec (s : String) : Option (List ShinyLogEntry) :=
  if s = "[]\n" then some [] else decListAux s.length s.toList

theorem countL_replicate (n : Nat) (l : List Char) :
    countL (List.replicate n 'L' ++ ':' :: l) = n := by
  induction n with
  | zero => simp [countL]
  | succ n ih => simp [List.replicate_succ, countL, ih]

theorem drop_replicate (n : Nat) (c : Char) (l : List Char) :
    List.drop n (List.replicate n c ++ l) = l := by
  induction n with
  | zero => rfl
  | succ n ih => simpa [List.replicate_succ] using ih

theorem decStr_enc (s : String) (rest : List Char) :
    decStr (encStr s ++ rest) = some (s.toList, rest) := by
  have hlen : s.length = s.toList.length := rfl
  have hshape : encStr s ++ rest
      = List.replicate s.length 'L' ++ ':' :: (s.toList ++ rest) := by
    unfold encStr
    rw [List.append_assoc, List.cons_append]
  have hc : countL (encStr s ++ rest) = s.length := by
    rw [hshape]
    exact countL_replicate _ _
  unfold decStr
  rw [hc, hshape, drop_replicate]
  show (if s.length ≤ (s.toList ++ rest).length then
      some ((s.toList ++ rest).take s.length, (s.toList ++ rest).drop s.length)
    else none) = some (s.toList, rest)
  rw [if_pos (by rw [hlen]; simp)]
  rw [hlen, List.take_left, List.drop_left]

theorem decEntry_enc (e : ShinyLogEntry) (rest : List Char) :
    decEntry (encEntry e ++ rest) = some (e, rest) := by
  unfold decEntry encEntry
  rw [List.append_assoc, List.append_assoc, List.append_assoc]
  simp only [decStr_enc]
  rfl

theorem decListAux_encList (l : List ShinyLogEntry) :
    ∀ fuel : Nat, l.length ≤ fuel → decListAux fuel (encList l) = some l := by
  induction l with
  | nil => intro fuel _; simp [encList, decListAux]
  | cons e es ih =>
    intro fuel hf
    obtain ⟨fuel1, rfl⟩ : ∃ k, fuel = k + 1 :=
      ⟨fuel - 1, by simp at hf; omega⟩
    show decListAux (fuel1 + 1) (encList (e :: es)) = some (e :: es)
    rw [show encList (e :: es) = 'C' :: (encEntry e ++ encList es) from rfl]
    rw [show decListAux (fuel1 + 1) ('C' :: (encEntry e ++ encList es))
        = (match decEntry (encEntry e ++ encList es) with
          | none => none
          | some (e2, rest) =>
            match decListAux fuel1 rest with
            | none => none
            | some es2 => some (e2 :: es2)) from rfl]
    rw [decEntry_enc]
    show (match decListAux fuel1 (encList es) with
      | none => none
      | some es2 => some (e :: es2)) = some (e :: es)
    rw [ih fuel1 (by simp at hf; omega)]

theorem encList_length_ge (l : List ShinyLogEntry) : l.length ≤ (encList l).length := by
  induction l with
  | nil => simp [encList]
  | cons e es ih =>
    simp only [encList, List.length_cons, List.length_append]
    omega

theorem demoEnc_ne_empty (l : List ShinyLogEntry) : demoEnc l ≠ "" := by
  intro h
  have h2 : encList l = [] := congrArg String.toList h
  cases l <;> simp [encList] at h2

theorem demo_roundtrip (l : List ShinyLogEntry) : demoDec (demoEnc l) = some l := by
  unfold demoDec
  rw [if_neg ?hne]
  case hne =>
    intro h
    have h2 : encList l = String.toList "[]\n" := congrArg String.toList h
    cases l with
    | nil => exact absurd h2 (by decide)
    | cons e es =>
      have hh := congrArg List.head? h2
      simp [encList] at hh
  show decListAux (demoEnc l).length (encList l) = some l
  exact decListAux_encList l _ (encList_length_ge l)

/-- Claim C9 witness: the round-trip theorem applied to the
demonstration serializer, an absent initial log file, and one appended
entry. -/
theorem C9_log_roundtrip_witness :
    ∃ c, appendMany demoEnc demoDec none
        [⟨"Pikachu", "regular", "01-01-2026 10:00", "Encountered shiny Pikachu regular!"⟩]
        = Except.ok (some c)
      ∧ load_shiny_log demoDec (some c)
        = Except.ok ([] ++
            [⟨"Pikachu", "regular", "01-01-2026 10:00", "Encountered shiny Pikachu regular!"⟩]) :=
  C9_log_roundtrip demoEnc demoDec demo_roundtrip (by decide) demoEnc_ne_empty
    none [] rfl
    [⟨"Pikachu", "regular", "01-01-2026 10:00", "Encountered shiny Pikachu regular!"⟩]
    (by simp)

/-- Claim C4 witness: the characterisation applied to the concrete
malformed filter x-y over the empty database. -/
theorem C4_invalid_generation_iff_witness :
    (selectorResolve "x-y" 0 0 []
        = Except.error (KError.InvalidGeneration "x-y")
      ↔ parseU8 (selectorBounds "x-y" 0).1 = none
        ∨ parseU8 (selectorBounds "x-y" 0).2 = none
        ∨ ∃ a b, parseU8 (selectorBounds "x-y" 0).1 = some a
            ∧ parseU8 (selectorBounds "x-y" 0).2 = some b
            ∧ generationCandidates [] a b = [])
    ∧ ∀ e, selectorResolve "x-y" 0 0 [] = Except.error e →
        e = KError.InvalidGeneration "x-y" :=
  C4_invalid_generation_iff "x-y" 0 0 []

/-- Claim C10 witness: the theorem applied to a record whose only listed
form is mega with every exclusion flag enabled. -/
theorem C10_regular_always_remains_witness :
    "regular" ∈ buildForms ["mega"] true true true
    ∧ buildForms ["mega"] true true true ≠ []
    ∧ ∃ f, chooseIdx (buildForms ["mega"] true true true) 0
        = some f ∧ chooseForm ["mega"] true true true 0 = f :=
  C10_regular_always_remains ["mega"] true true true 0
